import Mathlib

set_option maxHeartbeats 1000000

/-!
Verification development for the bolt-mev-boost constraints subsystem.

The Go sources are shallowly embedded:
* byte slices become lists of naturals (each element intended below 256),
* JSON documents become an explicit abstract syntax tree,
* external library types (attestantio builder bids, BLS signatures,
  phase0 hashes, decoded geth transactions) are kept opaque; their
  (de)serialisers are modelled as the identity on their JSON images,
  respectively as an abstract codec record,
* the hashicorp LRU cache is modelled as a capacity plus a
  most-recent-first association list.
-/

/-- Go byte slices; elements are intended to lie below 256. -/
abbrev HexBytes : Type := List Nat

/-- Raw transaction bytes (the repository's HexTransaction type). -/
abbrev HexTransaction : Type := List Nat

/-- Error family of HexBytes.UnmarshalJSON (spec taxonomy: InvalidHexEncoding).
The constructors model the Go errors "input missing", "invalid prefix"
and "invalid suffix" in that order. -/
inductive InvalidHexEncoding where
  | inputMissing
  | invalidStart
  | invalidEnd
deriving DecidableEq

/-- Model of Go's encoding/hex fromHexChar. -/
def fromHexChar (c : Char) : Option Nat :=
  if '0' ≤ c ∧ c ≤ '9' then some (c.toNat - 48)
  else if 'a' ≤ c ∧ c ≤ 'f' then some (c.toNat - 87)
  else if 'A' ≤ c ∧ c ≤ 'F' then some (c.toNat - 55)
  else none

/-- Model of Go's encoding/hex lowercase digit table indexing. -/
def hexDigit (n : Nat) : Char :=
  match n with
  | 0 => '0' | 1 => '1' | 2 => '2' | 3 => '3' | 4 => '4'
  | 5 => '5' | 6 => '6' | 7 => '7' | 8 => '8' | 9 => '9'
  | 10 => 'a' | 11 => 'b' | 12 => 'c' | 13 => 'd' | 14 => 'e' | _ => 'f'

/-- Two lowercase hex digits of one byte, high digit first. -/
def byteToHex (b : Nat) : List Char :=
  [hexDigit (b / 16), hexDigit (b % 16)]

/-- Lowercase hex rendering of a byte slice (the payload of fmt "%#x"
after the 0x mark). -/
def hexEncode (bs : HexBytes) : List Char :=
  bs.foldr (fun b acc => byteToHex b ++ acc) []

/-- Model of Go's hex.DecodeString: decodes byte pairs from the front and,
on an invalid digit or odd length, returns the bytes decoded before the
failure together with a failure flag (false = an error was produced). -/
def goHexDecode : List Char → HexBytes × Bool
  | [] => ([], true)
  | [_] => ([], false)
  | a :: b :: rest =>
    match fromHexChar a with
    | none => ([], false)
    | some hi =>
      match fromHexChar b with
      | none => ([], false)
      | some lo =>
        let r := goHexDecode rest
        ((hi * 16 + lo) :: r.1, r.2)

/-- Model of bytes.HasPrefix on characters: does s begin with pat. -/
def listStartsWith (s pat : List Char) : Bool :=
  match pat, s with
  | [], _ => true
  | _ :: _, [] => false
  | p :: ps, c :: cs => c == p && listStartsWith cs ps

/-- Model of the bytes.HasSuffix check against a single closing quote. -/
def listEndsWithQuote (s : List Char) : Bool :=
  s.getLast? == some '"'

/-- Model of encoding/json string unquoting after the opening quote.
Plain characters are copied, a raw control character is a syntax error,
the closing quote must end the input (data after the top-level value is
an error), and escape sequences are decoded: the short escapes, and
unicode escapes with surrogate-pair combination, an unpaired surrogate
becoming the replacement character without consuming what follows, as
unquoteBytes does; an invalid escape is a syntax error. Failure is
none. The first argument is recursion fuel: every step consumes at
least one character while spending one fuel, so the caller's character
count is sufficient and the zero-fuel arm is unreachable from
goUnquote. -/
def goUnquoteLoop : Nat → List Char → Option (List Char)
  | _, [] => none
  | _, '"' :: rest => if rest.isEmpty then some [] else none
  | 0, _ :: _ => none
  | fuel + 1, '\\' :: 'u' :: e1 :: e2 :: e3 :: e4 :: '\\' :: 'u' :: f1 :: f2 :: f3 :: f4 :: rest =>
    (match fromHexChar e1, fromHexChar e2, fromHexChar e3, fromHexChar e4 with
     | some a, some b, some c, some d =>
       let n := ((a * 16 + b) * 16 + c) * 16 + d
       if 0xD800 ≤ n ∧ n ≤ 0xDBFF then
         match fromHexChar f1, fromHexChar f2, fromHexChar f3, fromHexChar f4 with
         | some a2, some b2, some c2, some d2 =>
           let m := ((a2 * 16 + b2) * 16 + c2) * 16 + d2
           if 0xDC00 ≤ m ∧ m ≤ 0xDFFF then
             (goUnquoteLoop fuel rest).map
               (fun t => Char.ofNat (0x10000 + (n - 0xD800) * 0x400 + (m - 0xDC00)) :: t)
           else
             (goUnquoteLoop fuel ('\\' :: 'u' :: f1 :: f2 :: f3 :: f4 :: rest)).map
               (fun t => Char.ofNat 0xFFFD :: t)
         | _, _, _, _ => none
       else if 0xDC00 ≤ n ∧ n ≤ 0xDFFF then
         (goUnquoteLoop fuel ('\\' :: 'u' :: f1 :: f2 :: f3 :: f4 :: rest)).map
           (fun t => Char.ofNat 0xFFFD :: t)
       else
         (goUnquoteLoop fuel ('\\' :: 'u' :: f1 :: f2 :: f3 :: f4 :: rest)).map
           (fun t => Char.ofNat n :: t)
     | _, _, _, _ => none)
  | fuel + 1, '\\' :: 'u' :: e1 :: e2 :: e3 :: e4 :: rest =>
    (match fromHexChar e1, fromHexChar e2, fromHexChar e3, fromHexChar e4 with
     | some a, some b, some c, some d =>
       let n := ((a * 16 + b) * 16 + c) * 16 + d
       if 0xD800 ≤ n ∧ n ≤ 0xDFFF then
         (goUnquoteLoop fuel rest).map (fun t => Char.ofNat 0xFFFD :: t)
       else
         (goUnquoteLoop fuel rest).map (fun t => Char.ofNat n :: t)
     | _, _, _, _ => none)
  | fuel + 1, '\\' :: e :: rest =>
    (match e with
     | '"' => (goUnquoteLoop fuel rest).map (fun t => '"' :: t)
     | '\\' => (goUnquoteLoop fuel rest).map (fun t => '\\' :: t)
     | '/' => (goUnquoteLoop fuel rest).map (fun t => '/' :: t)
     | 'b' => (goUnquoteLoop fuel rest).map (fun t => Char.ofNat 8 :: t)
     | 'f' => (goUnquoteLoop fuel rest).map (fun t => Char.ofNat 12 :: t)
     | 'n' => (goUnquoteLoop fuel rest).map (fun t => Char.ofNat 10 :: t)
     | 'r' => (goUnquoteLoop fuel rest).map (fun t => Char.ofNat 13 :: t)
     | 't' => (goUnquoteLoop fuel rest).map (fun t => Char.ofNat 9 :: t)
     | _ => none)
  | fuel + 1, c :: rest =>
    if c.toNat < 32 then none else (goUnquoteLoop fuel rest).map (fun t => c :: t)

/-- Model of json.Unmarshal of the whole input into a string: the input
must be a quote-opened, well-formed string token. -/
def goUnquote (input : List Char) : Option (List Char) :=
  match input with
  | '"' :: rest => goUnquoteLoop rest.length rest
  | _ => none

/-- Content the source's discarded-error json.Unmarshal call leaves in
the data variable: the unquoted string on success, the zero-valued empty
string on failure. -/
def jsonStringContent (input : List Char) : List Char :=
  (goUnquote input).getD []

/-- Model of strings.TrimPrefix with the literal 0x mark. -/
def trimLeading0x (s : List Char) : List Char :=
  if listStartsWith s ['0', 'x'] then s.drop 2 else s

/-- Hex payload that HexBytes.UnmarshalJSON hands to hex.DecodeString. -/
def hexPayload (input : List Char) : List Char :=
  trimLeading0x (jsonStringContent input)

/-- Model of HexBytes.UnmarshalJSON (src/server/proofs.go): reject empty
input, input not beginning with a quoted 0x mark, and input not ending in
a quote; then decode the payload, discarding the hex.DecodeString error. -/
def hexBytesUnmarshalJSON (input : List Char) : Except InvalidHexEncoding HexBytes :=
  match input with
  | [] => Except.error InvalidHexEncoding.inputMissing
  | c :: cs =>
    if listStartsWith (c :: cs) ['"', '0', 'x'] = false then
      Except.error InvalidHexEncoding.invalidStart
    else if listEndsWithQuote (c :: cs) = false then
      Except.error InvalidHexEncoding.invalidEnd
    else
      Except.ok (goHexDecode (hexPayload (c :: cs))).1

/-- Unquoted JSON string value produced by HexBytes.MarshalJSON. -/
def hexBytesJsonString (h : HexBytes) : String :=
  String.mk ('0' :: 'x' :: hexEncode h)

/-- Well-formed byte slices: every element is an actual byte. -/
def HexBytesWF (bs : HexBytes) : Prop := ∀ b ∈ bs, b < 256

theorem fromHexChar_hexDigit (n : Nat) (h : n < 16) :
    fromHexChar (hexDigit n) = some n := by
  interval_cases n <;> decide

theorem goHexDecode_hexEncode (bs : HexBytes) (h : HexBytesWF bs) :
    goHexDecode (hexEncode bs) = (bs, true) := by
  induction bs with
  | nil => rfl
  | cons b t ih =>
    have hb : b < 256 := h b (by simp)
    have hhi : fromHexChar (hexDigit (b / 16)) = some (b / 16) :=
      fromHexChar_hexDigit _ (by omega)
    have hlo : fromHexChar (hexDigit (b % 16)) = some (b % 16) :=
      fromHexChar_hexDigit _ (by omega)
    have ht : goHexDecode (hexEncode t) = (t, true) :=
      ih (fun x hx => h x (by simp [hx]))
    have hshape : hexEncode (b :: t)
        = hexDigit (b / 16) :: hexDigit (b % 16) :: hexEncode t := rfl
    rw [hshape]
    simp only [goHexDecode, hhi, hlo, ht]
    have hrebuild : b / 16 * 16 + b % 16 = b := by omega
    rw [hrebuild]

theorem goUnquoteLoop_hexDigit (n : Nat) (h : n < 16) (f : Nat) (t : List Char) :
    goUnquoteLoop (f + 1) (hexDigit n :: t)
      = (goUnquoteLoop f t).map (fun l => hexDigit n :: l) := by
  interval_cases n <;> rfl

theorem goUnquoteLoop_hexEncode (bs : HexBytes) :
    ∀ f : Nat, HexBytesWF bs → (hexEncode bs).length < f →
      goUnquoteLoop f (hexEncode bs ++ ['"']) = some (hexEncode bs) := by
  induction bs with
  | nil =>
    intro f _ hf
    obtain ⟨g, rfl⟩ : ∃ g, f = g + 1 := ⟨f - 1, by omega⟩
    rfl
  | cons b t ih =>
    intro f hwf hf
    have hb : b < 256 := hwf b (by simp)
    have hlen : (hexEncode (b :: t)).length = (hexEncode t).length + 2 := by
      have hx : hexEncode (b :: t) = hexDigit (b / 16) :: hexDigit (b % 16) :: hexEncode t := rfl
      rw [hx]
      simp
    obtain ⟨g, rfl⟩ : ∃ g, f = (g + 1) + 1 := ⟨f - 2, by omega⟩
    have hshape : hexEncode (b :: t) ++ ['"']
        = hexDigit (b / 16) :: hexDigit (b % 16) :: (hexEncode t ++ ['"']) := rfl
    rw [hshape, goUnquoteLoop_hexDigit (b / 16) (by omega) (g + 1),
      goUnquoteLoop_hexDigit (b % 16) (by omega) g,
      ih g (fun x hx => hwf x (by simp [hx])) (by omega)]
    rfl

theorem hexBytesUnmarshal_of_encode (h : HexBytes) (hwf : HexBytesWF h) :
    hexBytesUnmarshalJSON ('"' :: '0' :: 'x' :: (hexEncode h ++ ['"'])) = Except.ok h := by
  have hconcat : ('"' :: '0' :: 'x' :: (hexEncode h ++ ['"']))
      = (('"' :: '0' :: 'x' :: hexEncode h) ++ ['"']) := by simp
  have hstart : listStartsWith ('"' :: '0' :: 'x' :: (hexEncode h ++ ['"'])) ['"', '0', 'x'] = true := by
    simp [listStartsWith]
  have hend : listEndsWithQuote ('"' :: '0' :: 'x' :: (hexEncode h ++ ['"'])) = true := by
    rw [listEndsWithQuote, hconcat, List.getLast?_concat]
    rfl
  have hcontent : jsonStringContent ('"' :: '0' :: 'x' :: (hexEncode h ++ ['"']))
      = '0' :: 'x' :: hexEncode h := by
    have hfuel : ('0' :: 'x' :: (hexEncode h ++ ['"'])).length
        = (((hexEncode h).length + 1) + 1) + 1 := by
      simp
    have hstep0 : ∀ g : Nat, goUnquoteLoop (g + 1) ('0' :: 'x' :: (hexEncode h ++ ['"']))
        = (goUnquoteLoop g ('x' :: (hexEncode h ++ ['"']))).map (fun l => '0' :: l) :=
      fun g => rfl
    have hstepx : ∀ g : Nat, goUnquoteLoop (g + 1) ('x' :: (hexEncode h ++ ['"']))
        = (goUnquoteLoop g (hexEncode h ++ ['"'])).map (fun l => 'x' :: l) :=
      fun g => rfl
    show (goUnquoteLoop (('0' :: 'x' :: (hexEncode h ++ ['"'])).length)
        ('0' :: 'x' :: (hexEncode h ++ ['"']))).getD [] = '0' :: 'x' :: hexEncode h
    rw [hfuel, hstep0, hstepx,
      goUnquoteLoop_hexEncode h ((hexEncode h).length + 1) hwf (by omega)]
    rfl
  have hpay : hexPayload ('"' :: '0' :: 'x' :: (hexEncode h ++ ['"'])) = hexEncode h := by
    rw [hexPayload, hcontent, trimLeading0x]
    simp [listStartsWith]
  simp only [hexBytesUnmarshalJSON, hstart, hend, hpay]
  simp [goHexDecode_hexEncode h hwf]

/-- Abstract JSON documents. Numbers are restricted to the unsigned
integers this subsystem produces and consumes. -/
inductive Json where
  | null
  | str (s : String)
  | num (n : Nat)
  | arr (elems : List Json)
  | obj (fields : List (String × Json))

/-- Field lookup in a JSON object; on duplicate keys the last binding
wins, matching encoding/json. -/
def lookupField (fields : List (String × Json)) (key : String) : Option Json :=
  match fields with
  | [] => none
  | (k, v) :: rest =>
    match lookupField rest key with
    | some r => some r
    | none => if k = key then some v else none

/-- InclusionProof (src/server/proofs.go). External phase0.Hash32 values
are kept opaque as their JSON images; merkle hashes are nilable pointers
to HexBytes. -/
structure InclusionProof where
  transactionHashes : List Json
  generalizedIndexes : List Nat
  merkleHashes : List (Option HexBytes)

/-- JSON image of a nilable HexBytes (nil marshals to null, otherwise
HexBytes.MarshalJSON emits the quoted 0x-hex string). -/
def hexBytesPtrToJson : Option HexBytes → Json
  | none => Json.null
  | some h => Json.str (hexBytesJsonString h)

/-- Default encoding/json marshalling of InclusionProof, field order as
declared with its JSON tags. -/
def inclusionProofToJson (p : InclusionProof) : Json :=
  Json.obj
    [("transaction_hashes", Json.arr p.transactionHashes),
     ("generalized_indexes", Json.arr (p.generalizedIndexes.map Json.num)),
     ("merkle_hashes", Json.arr (p.merkleHashes.map hexBytesPtrToJson))]

/-- Fork discriminant of go-eth2-client (consensusSpec.DataVersion); the
zero value is the unknown version, and the structure stops at the forks
the vendored library era recognises. -/
inductive DataVersion where
  | unknown
  | phase0
  | altair
  | bellatrix
  | capella
  | deneb
deriving DecidableEq

/-- Errors of VersionedSignedBuilderBidWithProofs.UnmarshalJSON and of the
nested default decoders it relies on. The unsupportedVersion constructor
is the default arm of the version switch; jsonShape and versionParse are
failures of the first-pass json.Unmarshal, dataShape of the second. -/
inductive UnmarshalError where
  | jsonShape
  | versionParse
  | dataShape
  | unsupportedVersion (v : DataVersion)
  | hexError (e : InvalidHexEncoding)
deriving DecidableEq

/-- Elementwise decoding of a JSON array of unsigned integers
(encoding/json for a uint64 slice). -/
def decodeNumList : List Json → Except UnmarshalError (List Nat)
  | [] => Except.ok []
  | Json.num n :: rest =>
    match decodeNumList rest with
    | Except.ok t => Except.ok (n :: t)
    | Except.error e => Except.error e
  | _ :: _ => Except.error UnmarshalError.dataShape

/-- Elementwise decoding of a JSON array of nilable HexBytes: null stays a
nil pointer, a string token is handed (re-quoted) to
HexBytes.UnmarshalJSON, and any other token fails its leading-quote
check. -/
def decodeMerkleList : List Json → Except UnmarshalError (List (Option HexBytes))
  | [] => Except.ok []
  | Json.null :: rest =>
    match decodeMerkleList rest with
    | Except.ok t => Except.ok (none :: t)
    | Except.error e => Except.error e
  | Json.str s :: rest =>
    match hexBytesUnmarshalJSON ('"' :: (s.data ++ ['"'])) with
    | Except.ok h =>
      match decodeMerkleList rest with
      | Except.ok t => Except.ok (some h :: t)
      | Except.error e => Except.error e
    | Except.error e => Except.error (UnmarshalError.hexError e)
  | _ :: _ => Except.error (UnmarshalError.hexError InvalidHexEncoding.invalidStart)

/-- Decoder of the transaction_hashes field: a missing field or null
leaves the nil slice; the opaque phase0.Hash32 elements pass through. -/
def decodeHashListField : Option Json → Except UnmarshalError (List Json)
  | none => Except.ok []
  | some Json.null => Except.ok []
  | some (Json.arr xs) => Except.ok xs
  | some _ => Except.error UnmarshalError.dataShape

/-- Decoder of the generalized_indexes field. -/
def decodeIndexListField : Option Json → Except UnmarshalError (List Nat)
  | none => Except.ok []
  | some Json.null => Except.ok []
  | some (Json.arr xs) => decodeNumList xs
  | some _ => Except.error UnmarshalError.dataShape

/-- Decoder of the merkle_hashes field. -/
def decodeMerkleListField : Option Json → Except UnmarshalError (List (Option HexBytes))
  | none => Except.ok []
  | some Json.null => Except.ok []
  | some (Json.arr xs) => decodeMerkleList xs
  | some _ => Except.error UnmarshalError.dataShape

/-- Default encoding/json unmarshalling of InclusionProof. -/
def inclusionProofFromJson (j : Json) : Except UnmarshalError InclusionProof :=
  match j with
  | Json.obj fields =>
    match decodeHashListField (lookupField fields "transaction_hashes") with
    | Except.error e => Except.error e
    | Except.ok th =>
      match decodeIndexListField (lookupField fields "generalized_indexes") with
      | Except.error e => Except.error e
      | Except.ok gi =>
        match decodeMerkleListField (lookupField fields "merkle_hashes") with
        | Except.error e => Except.error e
        | Except.ok mh =>
          Except.ok { transactionHashes := th, generalizedIndexes := gi, merkleHashes := mh }
  | _ => Except.error UnmarshalError.dataShape

/-- Well-formed proofs: every merkle hash consists of actual bytes. -/
def ProofWF (p : InclusionProof) : Prop :=
  ∀ ob ∈ p.merkleHashes, ∀ bs, ob = some bs → HexBytesWF bs

theorem decodeNumList_map (l : List Nat) :
    decodeNumList (l.map Json.num) = Except.ok l := by
  induction l with
  | nil => rfl
  | cons n t ih => simp [decodeNumList, ih]

theorem decodeMerkleList_map (l : List (Option HexBytes))
    (hwf : ∀ ob ∈ l, ∀ bs, ob = some bs → HexBytesWF bs) :
    decodeMerkleList (l.map hexBytesPtrToJson) = Except.ok l := by
  induction l with
  | nil => rfl
  | cons ob t ih =>
    have ht : decodeMerkleList (t.map hexBytesPtrToJson) = Except.ok t :=
      ih (fun x hx bs hbs => hwf x (by simp [hx]) bs hbs)
    match ob with
    | none => simp [hexBytesPtrToJson, decodeMerkleList, ht]
    | some h =>
      have hh : HexBytesWF h := hwf (some h) (by simp) h rfl
      have hdec : hexBytesUnmarshalJSON ('"' :: ((hexBytesJsonString h).data ++ ['"'])) = Except.ok h := by
        have hdata : (hexBytesJsonString h).data = '0' :: 'x' :: hexEncode h := rfl
        rw [hdata]
        exact hexBytesUnmarshal_of_encode h hh
      simp [hexBytesPtrToJson, decodeMerkleList, hdec, ht]

theorem inclusionProof_round_trip (p : InclusionProof) (hwf : ProofWF p) :
    inclusionProofFromJson (inclusionProofToJson p) = Except.ok p := by
  obtain ⟨th, gi, mh⟩ := p
  simp only [inclusionProofToJson, inclusionProofFromJson, lookupField]
  simp only [show ("merkle_hashes" = "transaction_hashes") = False by simp,
    show ("generalized_indexes" = "transaction_hashes") = False by simp,
    show ("transaction_hashes" = "transaction_hashes") = True by simp,
    show ("merkle_hashes" = "generalized_indexes") = False by simp,
    show ("generalized_indexes" = "generalized_indexes") = True by simp,
    show ("merkle_hashes" = "merkle_hashes") = True by simp,
    if_true, if_false, if_neg, if_pos]
  simp [decodeHashListField, decodeIndexListField, decodeMerkleListField,
    decodeNumList_map, decodeMerkleList_map mh (fun ob hob bs hbs => hwf ob (by simpa using hob) bs hbs)]

/-- ASCII lowercasing of one character (strings.ToLower on the ASCII
tokens this wire format uses). -/
def lowerChar (c : Char) : Char :=
  if 'A' ≤ c ∧ c ≤ 'Z' then Char.ofNat (c.toNat + 32) else c

/-- ASCII lowercasing of a token. -/
def lowerString (s : String) : String :=
  String.mk (s.data.map lowerChar)

/-- Model of DataVersion.UnmarshalJSON: the lowercased token must name a
known fork; anything else is a parse error (none). -/
def parseDataVersionString (s : String) : Option DataVersion :=
  match lowerString s with
  | "phase0" => some DataVersion.phase0
  | "altair" => some DataVersion.altair
  | "bellatrix" => some DataVersion.bellatrix
  | "capella" => some DataVersion.capella
  | "deneb" => some DataVersion.deneb
  | _ => none

/-- JSON image of the zero-valued 96-byte BLS signature, used when the
wire object omits the signature field. -/
def zeroBLSSignatureJson : Json :=
  Json.str (String.mk ('0' :: 'x' :: List.replicate 192 '0'))

/-- deneb.SignedBuilderBid: the external builder-bid message is opaque
(kept as its JSON image, none = nil pointer); the BLS signature is
likewise opaque. -/
structure DenebSignedBuilderBid where
  message : Option Json
  signature : Json

/-- VersionedSignedBuilderBidWithProofs (src/server/proofs.go, second,
Deneb-only variant), with the fields of the embedded
builderSpec.VersionedSignedBuilderBid flattened in. -/
structure VersionedSignedBuilderBidWithProofs where
  proofs : Option InclusionProof
  version : DataVersion
  bellatrix : Option Json
  capella : Option Json
  deneb : Option DenebSignedBuilderBid

/-- Errors of VersionedSignedBuilderBidWithProofs.MarshalJSON. The
nilDenebPayload constructor stands for the Go runtime nil-dereference
that reading v.Deneb.Message would cause when v.Deneb is nil. -/
inductive MarshalError where
  | unsupportedVersion (v : DataVersion)
  | nilDenebPayload
deriving DecidableEq

/-- JSON image of a nilable opaque message pointer. -/
def optMessageJson : Option Json → Json
  | none => Json.null
  | some m => m

/-- JSON image of the nilable proofs pointer. -/
def optProofJson : Option InclusionProof → Json
  | none => Json.null
  | some p => inclusionProofToJson p

/-- Model of VersionedSignedBuilderBidWithProofs.MarshalJSON: only the
deneb arm of the version switch emits an object, holding exactly the
message, signature and proofs fields (the proofs field is emitted even
when nil); every other version is the default error arm. -/
def marshalEnvelope (v : VersionedSignedBuilderBidWithProofs) : Except MarshalError Json :=
  match v.version with
  | DataVersion.deneb =>
    match v.deneb with
    | none => Except.error MarshalError.nilDenebPayload
    | some bid =>
      Except.ok (Json.obj
        [("message", optMessageJson bid.message),
         ("signature", bid.signature),
         ("proofs", optProofJson v.proofs)])
  | ver => Except.error (MarshalError.unsupportedVersion ver)

/-- First decode pass: extract only the version discriminant from the
envelope. A missing field keeps the zero value (unknown); a non-string
or unrecognised token is a version parse error; a non-object input is a
json shape error. -/
def firstPassVersion (j : Json) : Except UnmarshalError DataVersion :=
  match j with
  | Json.obj fields =>
    match lookupField fields "version" with
    | none => Except.ok DataVersion.unknown
    | some (Json.str s) =>
      match parseDataVersionString s with
      | some v => Except.ok v
      | none => Except.error UnmarshalError.versionParse
    | some _ => Except.error UnmarshalError.versionParse
  | _ => Except.error UnmarshalError.jsonShape

/-- Decoder of the nested message field: absent or null leaves the nil
pointer, anything else passes through the opaque external decoder. -/
def decodeBidMessage : Option Json → Option Json
  | none => none
  | some Json.null => none
  | some m => some m

/-- Decoder of the nested signature field: absent keeps the zero-valued
signature, anything else passes through the opaque external decoder. -/
def decodeBidSignature : Option Json → Json
  | none => zeroBLSSignatureJson
  | some s => s

/-- Decoder of the nested proofs field: absent or null leaves the nil
pointer, otherwise the InclusionProof default decoder runs. -/
def decodeProofsField : Option Json → Except UnmarshalError (Option InclusionProof)
  | none => Except.ok none
  | some Json.null => Except.ok none
  | some p =>
    match inclusionProofFromJson p with
    | Except.ok q => Except.ok (some q)
    | Except.error e => Except.error e

/-- Second decode pass of the deneb arm: re-parse the input against the
data-wrapped shape, building a fresh versioned bid whose only populated
payload is a deneb SignedBuilderBid; a missing or null data field keeps
the zero-valued nested struct. -/
def secondPassDeneb (j : Json) : Except UnmarshalError VersionedSignedBuilderBidWithProofs :=
  match j with
  | Json.obj fields =>
    match lookupField fields "data" with
    | none =>
      Except.ok
        { proofs := none, version := DataVersion.deneb, bellatrix := none, capella := none,
          deneb := some { message := none, signature := zeroBLSSignatureJson } }
    | some Json.null =>
      Except.ok
        { proofs := none, version := DataVersion.deneb, bellatrix := none, capella := none,
          deneb := some { message := none, signature := zeroBLSSignatureJson } }
    | some (Json.obj dfields) =>
      match decodeProofsField (lookupField dfields "proofs") with
      | Except.error e => Except.error e
      | Except.ok prf =>
        Except.ok
          { proofs := prf, version := DataVersion.deneb, bellatrix := none, capella := none,
            deneb := some
              { message := decodeBidMessage (lookupField dfields "message"),
                signature := decodeBidSignature (lookupField dfields "signature") } }
    | some _ => Except.error UnmarshalError.dataShape
  | _ => Except.error UnmarshalError.jsonShape

/-- Model of VersionedSignedBuilderBidWithProofs.UnmarshalJSON: two-pass
decode, switching on the first-pass discriminant with deneb the only
supported arm. -/
def unmarshalEnvelope (j : Json) : Except UnmarshalError VersionedSignedBuilderBidWithProofs :=
  match firstPassVersion j with
  | Except.error e => Except.error e
  | Except.ok DataVersion.deneb => secondPassDeneb j
  | Except.ok v => Except.error (UnmarshalError.unsupportedVersion v)

/-- Wire wrapper the decoder expects: the encoder output nested under a
data field next to the version discriminant, the response shape of the
Constraints-API getHeaderWithProofs endpoint. -/
def wrapDenebData (w : Json) : Json :=
  Json.obj [("version", Json.str "deneb"), ("data", w)]

/-- Well-formedness of the optional proofs attachment. -/
def EnvProofsWF : Option InclusionProof → Prop
  | none => True
  | some p => ProofWF p

theorem decodeProofsField_optProofJson (p : Option InclusionProof) (hp : EnvProofsWF p) :
    decodeProofsField (some (optProofJson p)) = Except.ok p := by
  match p with
  | none => rfl
  | some pr =>
    have hrt : inclusionProofFromJson (inclusionProofToJson pr) = Except.ok pr :=
      inclusionProof_round_trip pr hp
    have hshape : optProofJson (some pr)
        = Json.obj
            [("transaction_hashes", Json.arr pr.transactionHashes),
             ("generalized_indexes", Json.arr (pr.generalizedIndexes.map Json.num)),
             ("merkle_hashes", Json.arr (pr.merkleHashes.map hexBytesPtrToJson))] := rfl
    rw [hshape]
    simp only [decodeProofsField]
    rw [show (Json.obj
        [("transaction_hashes", Json.arr pr.transactionHashes),
         ("generalized_indexes", Json.arr (pr.generalizedIndexes.map Json.num)),
         ("merkle_hashes", Json.arr (pr.merkleHashes.map hexBytesPtrToJson))])
      = inclusionProofToJson pr from rfl, hrt]

theorem decodeBidMessage_optMessageJson (m : Option Json) (hm : m ≠ some Json.null) :
    decodeBidMessage (some (optMessageJson m)) = m := by
  match m with
  | none => rfl
  | some Json.null => exact absurd rfl hm
  | some (Json.str s) => rfl
  | some (Json.num n) => rfl
  | some (Json.arr l) => rfl
  | some (Json.obj f) => rfl

theorem parseDataVersionString_deneb : parseDataVersionString "deneb" = some DataVersion.deneb := rfl

/-- Claim C1, counterexample: encoding a concrete deneb envelope emits the
bare message/signature/proofs object, and decoding that very output fails
with the unsupported-version default arm (the discriminant is absent, so
the first pass yields the zero value) instead of returning the envelope. -/
theorem C1_round_trip_counterexample :
    marshalEnvelope
        { proofs := none, version := DataVersion.deneb, bellatrix := none, capella := none,
          deneb := some { message := none, signature := Json.str "0xsig" } }
      = Except.ok (Json.obj
          [("message", Json.null), ("signature", Json.str "0xsig"), ("proofs", Json.null)])
    ∧ unmarshalEnvelope (Json.obj
          [("message", Json.null), ("signature", Json.str "0xsig"), ("proofs", Json.null)])
      = Except.error (UnmarshalError.unsupportedVersion DataVersion.unknown) :=
  ⟨rfl, rfl⟩

/-- Claim C1, amended: for the supported version (deneb), decoding the
version/data-wrapped form of the encoder's output succeeds and returns an
envelope equal to the original, with or without an attached proof;
decoding the encoder's output directly fails, since the encoder omits the
wrapper (see the counterexample). -/
theorem C1_wrapped_round_trip (prf : Option InclusionProof) (msg : Option Json) (sig : Json)
    (hm : msg ≠ some Json.null) (hp : EnvProofsWF prf) :
    ∃ w,
      marshalEnvelope
          { proofs := prf, version := DataVersion.deneb, bellatrix := none, capella := none,
            deneb := some { message := msg, signature := sig } }
        = Except.ok w
      ∧ unmarshalEnvelope (wrapDenebData w)
        = Except.ok
            { proofs := prf, version := DataVersion.deneb, bellatrix := none, capella := none,
              deneb := some { message := msg, signature := sig } } := by
  refine ⟨Json.obj
    [("message", optMessageJson msg), ("signature", sig), ("proofs", optProofJson prf)],
    rfl, ?_⟩
  have hred : unmarshalEnvelope (wrapDenebData (Json.obj
      [("message", optMessageJson msg), ("signature", sig), ("proofs", optProofJson prf)]))
      = (match decodeProofsField (some (optProofJson prf)) with
         | Except.error e => Except.error e
         | Except.ok pr =>
           Except.ok
             { proofs := pr, version := DataVersion.deneb, bellatrix := none, capella := none,
               deneb := some
                 { message := decodeBidMessage (some (optMessageJson msg)),
                   signature := decodeBidSignature (some sig) } }) := rfl
  rw [hred, decodeProofsField_optProofJson prf hp, decodeBidMessage_optMessageJson msg hm]
  rfl

/-- Witness for C1: the amended round-trip at a concrete envelope carrying
an inclusion proof. -/
theorem C1_wrapped_round_trip_witness :
    ∃ w,
      marshalEnvelope
          { proofs := some
              { transactionHashes := [Json.num 1], generalizedIndexes := [3],
                merkleHashes := [some [170, 0], none] },
            version := DataVersion.deneb, bellatrix := none, capella := none,
            deneb := some { message := some (Json.obj []), signature := Json.str "0xsig" } }
        = Except.ok w
      ∧ unmarshalEnvelope (wrapDenebData w)
        = Except.ok
            { proofs := some
                { transactionHashes := [Json.num 1], generalizedIndexes := [3],
                  merkleHashes := [some [170, 0], none] },
              version := DataVersion.deneb, bellatrix := none, capella := none,
              deneb := some { message := some (Json.obj []), signature := Json.str "0xsig" } } :=
  C1_wrapped_round_trip _ _ _ (by simp)
    (by
      intro ob hob bs hbs
      simp only [List.mem_cons, List.mem_singleton] at hob
      rcases hob with h | h | h
      · rw [h] at hbs
        cases hbs
        intro b hb
        simp only [List.mem_cons, List.mem_singleton] at hb
        rcases hb with rfl | rfl | h
        · omega
        · omega
        · cases h
      · rw [h] at hbs
        cases hbs
      · cases h)

/-- Claim C8: a payload whose parsed discriminant is any known version
other than deneb decodes to the unsupported-version error, and encoding
an envelope carrying a non-deneb discriminant fails the same way, with no
partial output. -/
theorem C8_unknown_version_rejection :
    (∀ (j : Json) (v : DataVersion), firstPassVersion j = Except.ok v →
        v ≠ DataVersion.deneb →
        unmarshalEnvelope j = Except.error (UnmarshalError.unsupportedVersion v))
  ∧ (∀ e : VersionedSignedBuilderBidWithProofs, e.version ≠ DataVersion.deneb →
        marshalEnvelope e = Except.error (MarshalError.unsupportedVersion e.version)) := by
  constructor
  · intro j v hfp hne
    unfold unmarshalEnvelope
    rw [hfp]
    cases v with
    | deneb => exact absurd rfl hne
    | unknown => rfl
    | phase0 => rfl
    | altair => rfl
    | bellatrix => rfl
    | capella => rfl
  · intro e he
    obtain ⟨p, ver, b, c, d⟩ := e
    cases ver with
    | deneb => exact absurd rfl he
    | unknown => rfl
    | phase0 => rfl
    | altair => rfl
    | bellatrix => rfl
    | capella => rfl

/-- Witness for C8: a capella-tagged payload is rejected on decode, and a
capella-tagged envelope is rejected on encode. -/
theorem C8_unknown_version_rejection_witness :
    unmarshalEnvelope (Json.obj [("version", Json.str "capella")])
      = Except.error (UnmarshalError.unsupportedVersion DataVersion.capella)
  ∧ marshalEnvelope
      { proofs := none, version := DataVersion.capella, bellatrix := none,
        capella := none, deneb := none }
      = Except.error (MarshalError.unsupportedVersion DataVersion.capella) :=
  ⟨C8_unknown_version_rejection.1 (Json.obj [("version", Json.str "capella")])
      DataVersion.capella rfl (by decide),
   C8_unknown_version_rejection.2
      { proofs := none, version := DataVersion.capella, bellatrix := none,
        capella := none, deneb := none } (by decide)⟩

/-- Multiproof of the external fastssz library: parallel slices of sibling
hashes, leaves and generalized indices (Go int elements). -/
structure Multiproof where
  Indices : List Int
  Leaves : List HexBytes
  Hashes : List HexBytes

/-- Go conversion uint64(i) on an int, two's complement wraparound. -/
def goIntToUInt64 (i : Int) : Nat := (i % (2 ^ 64 : Int)).toNat

/-- Model of InclusionProofFromMultiProof (src/server/proofs.go): copy the
sibling hashes, convert the indices, compute and discard the leaves, and
leave the transaction hashes unfilled. -/
def InclusionProofFromMultiProof (mp : Multiproof) : InclusionProof :=
  let merkleHashes := mp.Hashes.map (fun h => some h)
  let _leaves := mp.Leaves.map (fun h => some h)
  let generalIndexes := mp.Indices.map goIntToUInt64
  { transactionHashes := [], generalizedIndexes := generalIndexes,
    merkleHashes := merkleHashes }

theorem map_goIntToUInt64_ofNat (l : List Int) (h : ∀ i ∈ l, 0 ≤ i ∧ i < 2 ^ 64) :
    (l.map goIntToUInt64).map Int.ofNat = l := by
  induction l with
  | nil => rfl
  | cons a t ih =>
    obtain ⟨h0, h1⟩ := h a (by simp)
    have ha : Int.ofNat (goIntToUInt64 a) = a := by
      rw [goIntToUInt64, Int.emod_eq_of_lt h0 h1]
      exact Int.toNat_of_nonneg h0
    simp only [List.map_cons, ha, ih (fun i hi => h i (by simp [hi]))]

/-- Claim C7: the conversion preserves the sibling hashes and the indices
in order and count (the indices via the value-preserving uint64
conversion for the collaborator's actual index domain) and leaves the
transaction hashes empty. -/
theorem C7_multiproof_conversion (mp : Multiproof)
    (h : ∀ i ∈ mp.Indices, 0 ≤ i ∧ i < 2 ^ 64) :
    (InclusionProofFromMultiProof mp).merkleHashes = mp.Hashes.map (fun x => some x)
  ∧ (InclusionProofFromMultiProof mp).merkleHashes.length = mp.Hashes.length
  ∧ (InclusionProofFromMultiProof mp).generalizedIndexes = mp.Indices.map goIntToUInt64
  ∧ (InclusionProofFromMultiProof mp).generalizedIndexes.length = mp.Indices.length
  ∧ (InclusionProofFromMultiProof mp).generalizedIndexes.map Int.ofNat = mp.Indices
  ∧ (InclusionProofFromMultiProof mp).transactionHashes = [] :=
  ⟨rfl, by simp [InclusionProofFromMultiProof], rfl,
   by simp [InclusionProofFromMultiProof],
   map_goIntToUInt64_ofNat mp.Indices h, rfl⟩

/-- Witness for C7: the conversion at a concrete one-hash multiproof. -/
theorem C7_multiproof_conversion_witness :
    (InclusionProofFromMultiProof ⟨[3], [[1, 2]], [[170]]⟩).merkleHashes
      = ([[170]] : List HexBytes).map (fun x => some x)
  ∧ (InclusionProofFromMultiProof ⟨[3], [[1, 2]], [[170]]⟩).generalizedIndexes.map Int.ofNat
      = [3]
  ∧ (InclusionProofFromMultiProof ⟨[3], [[1, 2]], [[170]]⟩).transactionHashes = [] :=
  ⟨(C7_multiproof_conversion ⟨[3], [[1, 2]], [[170]]⟩ (by decide)).1,
   (C7_multiproof_conversion ⟨[3], [[1, 2]], [[170]]⟩ (by decide)).2.2.2.2.1,
   (C7_multiproof_conversion ⟨[3], [[1, 2]], [[170]]⟩ (by decide)).2.2.2.2.2⟩

/-- Abstract external transaction codec (go-ethereum types.Transaction):
binary decode, blob-sidecar stripping, binary encode and canonical hash.
The decoded transaction type is opaque; the 32-byte gethCommon.Hash is
modelled as its numeric value. -/
structure TxCodec where
  Tx : Type
  unmarshalBinary : HexTransaction → Option Tx
  withoutBlobTxSidecar : Tx → Tx
  marshalBinary : Tx → Option HexTransaction
  hash : Tx → Nat

/-- Per-slot map of transaction hashes to normalized transaction bytes
(the repository's TransactionHashMap), as an association list without
duplicate keys. -/
abbrev TransactionHashMap : Type := List (Nat × HexTransaction)

/-- Go map write: replace the binding in place or append a fresh one. -/
def mapInsert (m : TransactionHashMap) (k : Nat) (v : HexTransaction) : TransactionHashMap :=
  match m with
  | [] => [(k, v)]
  | (k', v') :: rest => if k' = k then (k, v) :: rest else (k', v') :: mapInsert rest k v

/-- Go map read. -/
def mapLookup (m : TransactionHashMap) (k : Nat) : Option HexTransaction :=
  match m with
  | [] => none
  | (k', v') :: rest => if k' = k then some v' else mapLookup rest k

/-- hashicorp golang-lru v2 cache over slot keys: fixed capacity plus the
entries in most-recent-first order. -/
structure LruCache where
  capacity : Nat
  entries : List (Nat × TransactionHashMap)

/-- First association for a key in the entry list. -/
def assocFind (l : List (Nat × TransactionHashMap)) (k : Nat) : Option TransactionHashMap :=
  match l with
  | [] => none
  | (k', v) :: rest => if k' = k then some v else assocFind rest k

/-- Entry list without the key's association. -/
def assocRemove (l : List (Nat × TransactionHashMap)) (k : Nat) : List (Nat × TransactionHashMap) :=
  match l with
  | [] => []
  | (k', v) :: rest => if k' = k then rest else (k', v) :: assocRemove rest k

/-- lru.Cache.Get: a hit moves the entry to the most-recent position and
returns its value; a miss leaves the cache unchanged. -/
def lruGet (c : LruCache) (k : Nat) : Option TransactionHashMap × LruCache :=
  match assocFind c.entries k with
  | none => (none, c)
  | some v => (some v, { capacity := c.capacity, entries := (k, v) :: assocRemove c.entries k })

/-- lru.Cache.Add: insert or refresh the key at the most-recent position,
evicting the least-recent entry when the capacity is exceeded. -/
def lruAdd (c : LruCache) (k : Nat) (v : TransactionHashMap) : LruCache :=
  { capacity := c.capacity, entries := ((k, v) :: assocRemove c.entries k).take c.capacity }

/-- In-place mutation of the map object stored under a key, through the
alias that Go's Get returned; the recency order is untouched. -/
def lruUpdateValue (c : LruCache) (k : Nat) (f : TransactionHashMap → TransactionHashMap) : LruCache :=
  { capacity := c.capacity,
    entries := c.entries.map (fun p => if p.1 = k then (p.1, f p.2) else p) }

/-- lru.Cache.Values: the cached values from oldest to newest, with no
recency update. -/
def lruValues (c : LruCache) : List TransactionHashMap :=
  (c.entries.map Prod.snd).reverse

/-- ConstraintsCache (the unnamed source file): a slot-keyed LRU of
per-slot transaction maps. -/
structure ConstraintsCache where
  constraints : LruCache

/-- NewConstraintsCache: a fresh cache of the given capacity. The model
assumes a positive capacity, as lru.New requires; the source discards the
error lru.New returns for a non-positive one. -/
def NewConstraintsCache (cap : Nat) : ConstraintsCache :=
  { constraints := { capacity := cap, entries := [] } }

/-- Outcome of AddInclusionConstraints. The panicNilMapWrite constructor
stands for the Go runtime panic raised by writing into the nil map that
Get returned for an absent slot (the freshly added empty map is a
different object and the local variable is never rebound). -/
inductive AddOutcome where
  | ok
  | errNilTransaction
  | errDecodeFailed
  | errEncodeFailed
  | panicNilMapWrite
deriving DecidableEq

/-- Loop body of AddInclusionConstraints over the transaction list. The
mIsNil flag records whether the local map variable aliases the cached map
(slot already present) or is the nil map of a missed Get. -/
def constraintsAddLoop (codec : TxCodec) (slot : Nat) (mIsNil : Bool) :
    List (Option HexTransaction) → LruCache → AddOutcome × LruCache
  | [], c => (AddOutcome.ok, c)
  | none :: _, c => (AddOutcome.errNilTransaction, c)
  | some raw :: rest, c =>
    match codec.unmarshalBinary raw with
    | none => (AddOutcome.errDecodeFailed, c)
    | some tx =>
      let txStripped := codec.withoutBlobTxSidecar tx
      match codec.marshalBinary txStripped with
      | none => (AddOutcome.errEncodeFailed, c)
      | some normBytes =>
        if mIsNil then (AddOutcome.panicNilMapWrite, c)
        else
          constraintsAddLoop codec slot mIsNil rest
            (lruUpdateValue c slot (fun m => mapInsert m (codec.hash txStripped) normBytes))

/-- Model of ConstraintsCache.AddInclusionConstraints: an empty input is a
no-op; otherwise look the slot up (a hit bumps its recency), add a fresh
empty map when absent, and run the per-transaction loop, which on an
absent slot can only error or panic since the local map stayed nil. -/
def ConstraintsCache.AddInclusionConstraints (cache : ConstraintsCache) (codec : TxCodec)
    (slot : Nat) (transactions : List (Option HexTransaction)) : AddOutcome × ConstraintsCache :=
  if transactions.isEmpty then (AddOutcome.ok, cache)
  else
    match lruGet cache.constraints slot with
    | (some _, c1) =>
      let r := constraintsAddLoop codec slot false transactions c1
      (r.1, { constraints := r.2 })
    | (none, c1) =>
      let c2 := lruAdd c1 slot []
      let r := constraintsAddLoop codec slot true transactions c2
      (r.1, { constraints := r.2 })

/-- Model of ConstraintsCache.Get: an LRU read, counting as an access. -/
def ConstraintsCache.Get (cache : ConstraintsCache) (slot : Nat) :
    Option TransactionHashMap × ConstraintsCache :=
  let r := lruGet cache.constraints slot
  (r.1, { constraints := r.2 })

/-- Scan of the cached maps in enumeration order for a transaction hash. -/
def findInValues : List TransactionHashMap → Nat → Option HexTransaction
  | [], _ => none
  | m :: rest, h =>
    match mapLookup m h with
    | some tx => some tx
    | none => findInValues rest h

/-- Model of ConstraintsCache.FindTransactionByHash: a linear scan over
Values, which records no access; the cache state is returned to make the
absence of mutation visible. -/
def ConstraintsCache.FindTransactionByHash (cache : ConstraintsCache) (txHash : Nat) :
    Option HexTransaction × ConstraintsCache :=
  (findInValues (lruValues cache.constraints) txHash, cache)

/-- Concrete instance of the external codec, used for witnesses: raw bytes
decode to themselves, stripping is the identity, and the hash reads the
bytes as a big-endian numeral. -/
def sampleCodec : TxCodec :=
  { Tx := HexTransaction,
    unmarshalBinary := fun bs => some bs,
    withoutBlobTxSidecar := fun tx => tx,
    marshalBinary := fun tx => some tx,
    hash := fun tx => tx.foldl (fun a b => 256 * a + b) 0 }

/-- Sequential AddInclusionConstraints calls over a list of slots. -/
def addSlots (codec : TxCodec) (cache : ConstraintsCache)
    (slots : List Nat) (txsOf : Nat → List (Option HexTransaction)) : ConstraintsCache :=
  slots.foldl (fun c s => (c.AddInclusionConstraints codec s (txsOf s)).2) cache

theorem mapLookup_mapInsert (m : TransactionHashMap) (k : Nat) (v : HexTransaction) :
    mapLookup (mapInsert m k v) k = some v := by
  induction m with
  | nil => simp [mapInsert, mapLookup]
  | cons p rest ih =>
    obtain ⟨k', v'⟩ := p
    by_cases h : k' = k
    · subst h
      simp [mapInsert, mapLookup]
    · simp [mapInsert, mapLookup, h, ih]

/-- Claim C9: an empty transaction sequence returns before touching the
cache, so the whole state, recency order included, is unchanged and the
call succeeds. -/
theorem C9_empty_input_noop (codec : TxCodec) (cache : ConstraintsCache) (slot : Nat) :
    cache.AddInclusionConstraints codec slot [] = (AddOutcome.ok, cache) := rfl

/-- Claim C10: FindTransactionByHash enumerates the cached values without
recording an access, so the cache state is unchanged and any subsequent
read or write behaves exactly as it would have without the scan. -/
theorem C10_find_transaction_frame (cache : ConstraintsCache) (txHash : Nat) :
    (cache.FindTransactionByHash txHash).2 = cache
  ∧ (∀ (codec : TxCodec) (slot : Nat) (txs : List (Option HexTransaction)),
      ((cache.FindTransactionByHash txHash).2).AddInclusionConstraints codec slot txs
        = cache.AddInclusionConstraints codec slot txs)
  ∧ (∀ slot : Nat, ((cache.FindTransactionByHash txHash).2).Get slot = cache.Get slot) :=
  ⟨rfl, fun _ _ _ => rfl, fun _ => rfl⟩

/-- Claim C2 (code bug): on a slot not yet cached, inserting a decodable
transaction reaches the write into the nil map the missed Get returned
and panics; only the lazily added empty map remains, so the transaction
is neither stored nor retrievable and the call never returns success. -/
theorem C2_fresh_slot_insert_panics :
    (NewConstraintsCache 2).AddInclusionConstraints sampleCodec 5 [some [1]]
      = (AddOutcome.panicNilMapWrite,
         { constraints := { capacity := 2, entries := [(5, [])] } })
  ∧ ((((NewConstraintsCache 2).AddInclusionConstraints sampleCodec 5 [some [1]]).2).Get 5).1
      = some []
  ∧ ((((NewConstraintsCache 2).AddInclusionConstraints sampleCodec 5 [some [1]]).2).FindTransactionByHash
      (sampleCodec.hash [1])).1 = none :=
  ⟨rfl, rfl, rfl⟩

/-- Claim C3, counterexample: a nil transaction on an absent slot does
return the malformed-input error, but a slot entry (the lazily added
empty map) does exist afterwards; and with a valid transaction before the
nil one on an absent slot the call panics instead of erroring, leaving
the first transaction unretrievable. -/
theorem C3_malformed_input_counterexample :
    ((NewConstraintsCache 2).AddInclusionConstraints sampleCodec 5 [none]).1
      = AddOutcome.errNilTransaction
  ∧ ((((NewConstraintsCache 2).AddInclusionConstraints sampleCodec 5 [none]).2).Get 5).1
      = some []
  ∧ ((NewConstraintsCache 2).AddInclusionConstraints sampleCodec 5 [some [1], none]).1
      = AddOutcome.panicNilMapWrite
  ∧ ((((NewConstraintsCache 2).AddInclusionConstraints sampleCodec 5 [some [1], none]).2).FindTransactionByHash
      (sampleCodec.hash [1])).1 = none :=
  ⟨rfl, rfl, rfl, rfl⟩

/-- Claim C3, amended: a leading nil transaction always returns the
malformed-input error; when the slot was absent, an empty slot entry
exists after the call (instead of none); and when the slot was already
present, a valid transaction followed by a nil one leaves the error plus
the first transaction stored in the slot's map. -/
theorem C3_malformed_input_amended :
    (∀ (codec : TxCodec) (cache : ConstraintsCache) (slot : Nat)
        (rest : List (Option HexTransaction)),
      (cache.AddInclusionConstraints codec slot (none :: rest)).1
        = AddOutcome.errNilTransaction)
  ∧ (∀ (codec : TxCodec) (cache : ConstraintsCache) (slot : Nat),
      0 < cache.constraints.capacity →
      assocFind cache.constraints.entries slot = none →
      ((((cache.AddInclusionConstraints codec slot [none]).2).Get slot).1 = some []))
  ∧ (∀ (codec : TxCodec) (cache : ConstraintsCache) (slot : Nat) (m0 : TransactionHashMap)
        (raw : HexTransaction) (tx : codec.Tx) (nb : HexTransaction),
      assocFind cache.constraints.entries slot = some m0 →
      codec.unmarshalBinary raw = some tx →
      codec.marshalBinary (codec.withoutBlobTxSidecar tx) = some nb →
      (cache.AddInclusionConstraints codec slot [some raw, none]).1
          = AddOutcome.errNilTransaction
        ∧ ((((cache.AddInclusionConstraints codec slot [some raw, none]).2).Get slot).1
            = some (mapInsert m0 (codec.hash (codec.withoutBlobTxSidecar tx)) nb))
        ∧ mapLookup (mapInsert m0 (codec.hash (codec.withoutBlobTxSidecar tx)) nb)
            (codec.hash (codec.withoutBlobTxSidecar tx)) = some nb) := by
  refine ⟨?_, ?_, ?_⟩
  · intro codec cache slot rest
    unfold ConstraintsCache.AddInclusionConstraints
    rcases hg : lruGet cache.constraints slot with ⟨mo, c1⟩
    cases mo <;> simp [hg, constraintsAddLoop]
  · intro codec cache slot hcap habs
    obtain ⟨n, hn⟩ : ∃ n, cache.constraints.capacity = n + 1 :=
      ⟨cache.constraints.capacity - 1, by omega⟩
    have hg : lruGet cache.constraints slot = (none, cache.constraints) := by
      unfold lruGet
      rw [habs]
    unfold ConstraintsCache.AddInclusionConstraints
    simp only [List.isEmpty_cons, Bool.false_eq_true, if_false, hg]
    simp only [constraintsAddLoop, lruAdd, hn, List.take_succ_cons]
    unfold ConstraintsCache.Get lruGet
    simp [assocFind]
  · intro codec cache slot m0 raw tx nb hfind hdec henc
    have hg : lruGet cache.constraints slot
        = (some m0, { capacity := cache.constraints.capacity,
                      entries := (slot, m0) :: assocRemove cache.constraints.entries slot }) := by
      unfold lruGet
      rw [hfind]
    have hloop :
        constraintsAddLoop codec slot false [some raw, none]
          { capacity := cache.constraints.capacity,
            entries := (slot, m0) :: assocRemove cache.constraints.entries slot }
        = (AddOutcome.errNilTransaction,
           lruUpdateValue
             { capacity := cache.constraints.capacity,
               entries := (slot, m0) :: assocRemove cache.constraints.entries slot }
             slot (fun m => mapInsert m (codec.hash (codec.withoutBlobTxSidecar tx)) nb)) := by
      simp only [constraintsAddLoop, hdec, henc]
      rfl
    have hmain : cache.AddInclusionConstraints codec slot [some raw, none]
        = (AddOutcome.errNilTransaction,
           { constraints := lruUpdateValue
               { capacity := cache.constraints.capacity,
                 entries := (slot, m0) :: assocRemove cache.constraints.entries slot }
               slot (fun m => mapInsert m (codec.hash (codec.withoutBlobTxSidecar tx)) nb) }) := by
      unfold ConstraintsCache.AddInclusionConstraints
      simp only [List.isEmpty_cons, Bool.false_eq_true, if_false, hg]
      simp only [hloop]
    rw [hmain]
    refine ⟨rfl, ?_, mapLookup_mapInsert m0 _ nb⟩
    have hupd : lruUpdateValue
        { capacity := cache.constraints.capacity,
          entries := (slot, m0) :: assocRemove cache.constraints.entries slot }
        slot (fun m => mapInsert m (codec.hash (codec.withoutBlobTxSidecar tx)) nb)
        = { capacity := cache.constraints.capacity,
            entries := (slot, mapInsert m0 (codec.hash (codec.withoutBlobTxSidecar tx)) nb)
              :: (assocRemove cache.constraints.entries slot).map
                   (fun p => if p.1 = slot
                     then (p.1, mapInsert p.2 (codec.hash (codec.withoutBlobTxSidecar tx)) nb)
                     else p) } := by
      simp [lruUpdateValue]
    rw [hupd]
    unfold ConstraintsCache.Get lruGet
    simp [assocFind]

/-- Witness for C3: the amended statement at concrete inputs, one call on
an absent slot and one on a present slot. -/
theorem C3_malformed_input_witness :
    (((NewConstraintsCache 2).AddInclusionConstraints sampleCodec 7 [none]).1
      = AddOutcome.errNilTransaction)
  ∧ ((((NewConstraintsCache 2).AddInclusionConstraints sampleCodec 7 [none]).2).Get 7).1
      = some []
  ∧ ((ConstraintsCache.mk { capacity := 2, entries := [(7, [])] }).AddInclusionConstraints
        sampleCodec 7 [some [1], none]).1 = AddOutcome.errNilTransaction :=
  ⟨C3_malformed_input_amended.1 sampleCodec (NewConstraintsCache 2) 7 [],
   C3_malformed_input_amended.2.1 sampleCodec (NewConstraintsCache 2) 7 (by decide) rfl,
   (C3_malformed_input_amended.2.2 sampleCodec
      (ConstraintsCache.mk { capacity := 2, entries := [(7, [])] }) 7 [] [1] [1] [1]
      rfl rfl rfl).1⟩

/-- Claim C4, counterexample: the quoted payload 0xaazz passes all three
syntactic checks and fails to hex-decode, yet the decoder returns the
partially decoded non-empty prefix (0xaa), not an empty byte array; the
same happens through an escape (the unicode escape for the letter a in
the payload unquotes to 0xaazz), while a stray interior quote makes the
discarded json.Unmarshal fail, leaving the zero-valued data and an empty
result. -/
theorem C4_hex_error_swallowed_counterexample :
    hexBytesUnmarshalJSON ['"', '0', 'x', 'a', 'a', 'z', 'z', '"'] = Except.ok [170]
  ∧ ([170] : HexBytes) ≠ []
  ∧ (goHexDecode (hexPayload ['"', '0', 'x', 'a', 'a', 'z', 'z', '"'])).2 = false
  ∧ hexBytesUnmarshalJSON ['"', '0', 'x', '\\', 'u', '0', '0', '6', '1', 'a', 'z', 'z', '"']
      = Except.ok [170]
  ∧ hexBytesUnmarshalJSON ['"', '0', 'x', 'a', 'a', '"', 'b', 'b', '"'] = Except.ok [] :=
  ⟨rfl, by decide, rfl, rfl, rfl⟩

/-- Claim C4, amended: when the syntactic checks pass and the payload
fails to hex-decode, the decoder returns no error and sets the receiver
to the bytes decoded before the failure point, which is empty only when
the failure occurs in the first byte pair. -/
theorem C4_hex_error_swallowed_amended (input : List Char)
    (h1 : input ≠ [])
    (h2 : listStartsWith input ['"', '0', 'x'] = true)
    (h3 : listEndsWithQuote input = true)
    (h4 : (goHexDecode (hexPayload input)).2 = false) :
    hexBytesUnmarshalJSON input = Except.ok (goHexDecode (hexPayload input)).1 := by
  match input with
  | [] => exact absurd rfl h1
  | c :: cs => simp [hexBytesUnmarshalJSON, h2, h3]

/-- Witness for C4: the amended statement at the concrete input 0xaazz,
whose decoded-before-failure bytes are the single byte 170, and at the
escape-carrying input whose payload unquotes to the same 0xaazz. -/
theorem C4_hex_error_swallowed_witness :
    hexBytesUnmarshalJSON ['"', '0', 'x', 'a', 'a', 'z', 'z', '"']
      = Except.ok (goHexDecode (hexPayload ['"', '0', 'x', 'a', 'a', 'z', 'z', '"'])).1
  ∧ (goHexDecode (hexPayload ['"', '0', 'x', 'a', 'a', 'z', 'z', '"'])).1 = [170]
  ∧ hexBytesUnmarshalJSON ['"', '0', 'x', '\\', 'u', '0', '0', '6', '1', 'a', 'z', 'z', '"']
      = Except.ok (goHexDecode
          (hexPayload ['"', '0', 'x', '\\', 'u', '0', '0', '6', '1', 'a', 'z', 'z', '"'])).1
  ∧ (goHexDecode
      (hexPayload ['"', '0', 'x', '\\', 'u', '0', '0', '6', '1', 'a', 'z', 'z', '"'])).1
      = [170] :=
  ⟨C4_hex_error_swallowed_amended ['"', '0', 'x', 'a', 'a', 'z', 'z', '"']
      (by decide) rfl rfl rfl, rfl,
   C4_hex_error_swallowed_amended ['"', '0', 'x', '\\', 'u', '0', '0', '6', '1', 'a', 'z', 'z', '"']
      (by decide) rfl rfl rfl, rfl⟩

/-- Claim C5: empty input, input missing the quoted 0x mark, and input
missing the closing quote each fail with the corresponding
InvalidHexEncoding error, and the quoted empty payload 0x decodes to the
zero-length byte array. -/
theorem C5_hex_boundary_cases :
    hexBytesUnmarshalJSON [] = Except.error InvalidHexEncoding.inputMissing
  ∧ (∀ input : List Char, input ≠ [] →
      listStartsWith input ['"', '0', 'x'] = false →
      hexBytesUnmarshalJSON input = Except.error InvalidHexEncoding.invalidStart)
  ∧ (∀ input : List Char, listStartsWith input ['"', '0', 'x'] = true →
      listEndsWithQuote input = false →
      hexBytesUnmarshalJSON input = Except.error InvalidHexEncoding.invalidEnd)
  ∧ hexBytesUnmarshalJSON ['"', '0', 'x', '"'] = Except.ok [] := by
  refine ⟨rfl, ?_, ?_, rfl⟩
  · intro input h1 h2
    match input with
    | [] => exact absurd rfl h1
    | c :: cs => simp [hexBytesUnmarshalJSON, h2]
  · intro input h2 h3
    match input with
    | [] => exact absurd h2 (by decide)
    | c :: cs => simp [hexBytesUnmarshalJSON, h2, h3]

/-- Witness for C5: the universal failure cases at concrete inputs, an
unquoted 0x12 and a quoted 0x12 missing its closing quote. -/
theorem C5_hex_boundary_cases_witness :
    hexBytesUnmarshalJSON ['0', 'x', '1', '2'] = Except.error InvalidHexEncoding.invalidStart
  ∧ hexBytesUnmarshalJSON ['"', '0', 'x', '1', '2'] = Except.error InvalidHexEncoding.invalidEnd :=
  ⟨C5_hex_boundary_cases.2.1 ['0', 'x', '1', '2'] (by decide) (by decide),
   C5_hex_boundary_cases.2.2.1 ['"', '0', 'x', '1', '2'] (by decide) (by decide)⟩

theorem constraintsAddLoop_nilMap (codec : TxCodec) (slot : Nat)
    (txs : List (Option HexTransaction)) (c : LruCache) :
    (constraintsAddLoop codec slot true txs c).2 = c := by
  match txs with
  | [] => rfl
  | none :: rest => rfl
  | some raw :: rest =>
    simp only [constraintsAddLoop]
    rcases hdec : codec.unmarshalBinary raw with _ | tx
    · simp [hdec]
    · simp only [hdec]
      rcases henc : codec.marshalBinary (codec.withoutBlobTxSidecar tx) with _ | nb
      · simp [henc]
      · simp [henc]

theorem assocFind_eq_none_of_fresh (l : List (Nat × TransactionHashMap)) (k : Nat)
    (h : ∀ p ∈ l, p.1 ≠ k) : assocFind l k = none := by
  induction l with
  | nil => rfl
  | cons p rest ih =>
    obtain ⟨k', v⟩ := p
    have hk : k' ≠ k := h (k', v) (by simp)
    simp [assocFind, hk, ih (fun q hq => h q (by simp [hq]))]

theorem assocRemove_of_absent (l : List (Nat × TransactionHashMap)) (k : Nat)
    (h : assocFind l k = none) : assocRemove l k = l := by
  induction l with
  | nil => rfl
  | cons p rest ih =>
    obtain ⟨k', v⟩ := p
    by_cases hk : k' = k
    · subst hk
      simp [assocFind] at h
    · simp only [assocFind, if_neg hk] at h
      simp [assocRemove, hk, ih h]

theorem addInclusionConstraints_fresh (codec : TxCodec) (cache : ConstraintsCache)
    (slot : Nat) (txs : List (Option HexTransaction)) (hne : txs ≠ [])
    (habs : assocFind cache.constraints.entries slot = none) :
    ((cache.AddInclusionConstraints codec slot txs).2).constraints
      = { capacity := cache.constraints.capacity,
          entries := ((slot, ([] : TransactionHashMap)) :: cache.constraints.entries).take
            cache.constraints.capacity } := by
  match txs with
  | [] => exact absurd rfl hne
  | t :: rest =>
    have hg : lruGet cache.constraints slot = (none, cache.constraints) := by
      unfold lruGet
      rw [habs]
    unfold ConstraintsCache.AddInclusionConstraints
    simp only [List.isEmpty_cons, Bool.false_eq_true, if_false, hg]
    rw [constraintsAddLoop_nilMap]
    unfold lruAdd
    rw [assocRemove_of_absent _ _ habs]

theorem take_append_take (A B : List (Nat × TransactionHashMap)) (n : Nat) :
    (A ++ B.take n).take n = (A ++ B).take n := by
  rw [List.take_append_eq_append_take, List.take_append_eq_append_take, List.take_take]
  have hmin : min (n - A.length) n = n - A.length := by omega
  rw [hmin]

theorem addSlots_fresh_entries (codec : TxCodec) (txsOf : Nat → List (Option HexTransaction)) :
    ∀ (slots : List Nat) (cap : Nat) (l : List (Nat × TransactionHashMap)),
      slots.Nodup →
      (∀ s ∈ slots, txsOf s ≠ []) →
      (∀ s ∈ slots, ∀ p ∈ l, p.1 ≠ s) →
      l.length ≤ cap →
      (addSlots codec { constraints := { capacity := cap, entries := l } } slots txsOf).constraints
        = { capacity := cap,
            entries := ((slots.reverse.map (fun s => (s, ([] : TransactionHashMap)))) ++ l).take cap } := by
  intro slots
  induction slots with
  | nil =>
    intro cap l _ _ _ hlen
    simp [addSlots, List.take_of_length_le hlen]
  | cons s rest ih =>
    intro cap l hnodup hne hfresh hlen
    have habs : assocFind l s = none :=
      assocFind_eq_none_of_fresh l s (fun p hp => hfresh s (by simp) p hp)
    have hstep : ((ConstraintsCache.mk { capacity := cap, entries := l }).AddInclusionConstraints
          codec s (txsOf s)).2.constraints
        = { capacity := cap, entries := ((s, ([] : TransactionHashMap)) :: l).take cap } :=
      addInclusionConstraints_fresh codec _ s (txsOf s) (hne s (by simp)) habs
    have hunfold :
        addSlots codec (ConstraintsCache.mk { capacity := cap, entries := l }) (s :: rest) txsOf
        = addSlots codec
            ((ConstraintsCache.mk { capacity := cap, entries := l }).AddInclusionConstraints
              codec s (txsOf s)).2 rest txsOf := rfl
    have hrepack :
        ((ConstraintsCache.mk { capacity := cap, entries := l }).AddInclusionConstraints
          codec s (txsOf s)).2
        = ConstraintsCache.mk
            { capacity := cap, entries := ((s, ([] : TransactionHashMap)) :: l).take cap } := by
      rw [← hstep]
    rw [hunfold, hrepack]
    have hsub : ∀ t ∈ rest, ∀ p ∈ ((s, ([] : TransactionHashMap)) :: l).take cap, p.1 ≠ t := by
      intro t ht p hp
      have hmem : p ∈ (s, ([] : TransactionHashMap)) :: l := List.take_subset _ _ hp
      rcases List.mem_cons.mp hmem with hps | hpl
      · rw [hps]
        intro hst
        have hst' : s = t := hst
        have hsr : s ∈ rest := by rw [hst']; exact ht
        exact (List.nodup_cons.mp hnodup).1 hsr
      · exact hfresh t (by simp [ht]) p hpl
    have hres := ih cap (((s, ([] : TransactionHashMap)) :: l).take cap)
      (List.nodup_cons.mp hnodup).2
      (fun t ht => hne t (by simp [ht]))
      hsub
      (by
        have := List.length_take_le cap ((s, ([] : TransactionHashMap)) :: l)
        omega)
    rw [hres]
    have hshape : (s :: rest).reverse.map (fun t => (t, ([] : TransactionHashMap)))
        = rest.reverse.map (fun t => (t, ([] : TransactionHashMap)))
          ++ [(s, ([] : TransactionHashMap))] := by
      simp
    rw [hshape, List.append_assoc, List.singleton_append, take_append_take]

theorem assocFind_map_empty (l : List Nat) (k : Nat) :
    assocFind (l.map (fun s => (s, ([] : TransactionHashMap)))) k
      = if k ∈ l then some [] else none := by
  induction l with
  | nil => rfl
  | cons a t ih =>
    by_cases h : a = k
    · subst h
      simp [assocFind]
    · have h' : ¬ (k = a) := fun hh => h hh.symm
      simp [assocFind, h, h', ih]

/-- Claim C6: starting from a fresh cache of positive capacity N, calls
for N+1 pairwise distinct slots, each with a non-empty transaction list,
leave exactly N slot entries; the first (least-recently-touched) slot is
the absent one and every later slot is retrievable via Get. -/
theorem C6_eviction_bound (codec : TxCodec) (N : Nat) (hN : 0 < N)
    (s0 : Nat) (rest : List Nat) (hlen : rest.length = N)
    (hnodup : (s0 :: rest).Nodup)
    (txsOf : Nat → List (Option HexTransaction))
    (hne : ∀ s ∈ s0 :: rest, txsOf s ≠ []) :
    ((addSlots codec (NewConstraintsCache N) (s0 :: rest) txsOf).constraints.entries.length = N)
  ∧ (((addSlots codec (NewConstraintsCache N) (s0 :: rest) txsOf).Get s0).1 = none)
  ∧ (∀ s ∈ rest,
      ((addSlots codec (NewConstraintsCache N) (s0 :: rest) txsOf).Get s).1 = some []) := by
  have hentries : (addSlots codec (NewConstraintsCache N) (s0 :: rest) txsOf).constraints
      = { capacity := N,
          entries := (((s0 :: rest).reverse.map
            (fun s => (s, ([] : TransactionHashMap)))) ++ []).take N } :=
    addSlots_fresh_entries codec txsOf (s0 :: rest) N [] hnodup hne
      (fun s hs p hp => absurd hp (List.not_mem_nil p)) (by simp)
  have hlist : ((((s0 :: rest).reverse.map
        (fun s => (s, ([] : TransactionHashMap)))) ++ []).take N)
      = rest.reverse.map (fun s => (s, ([] : TransactionHashMap))) := by
    rw [List.append_nil]
    have hshape : (s0 :: rest).reverse.map (fun s => (s, ([] : TransactionHashMap)))
        = rest.reverse.map (fun s => (s, ([] : TransactionHashMap)))
          ++ [(s0, ([] : TransactionHashMap))] := by
      simp
    rw [hshape]
    exact List.take_left' (by simp [hlen])
  rw [hlist] at hentries
  refine ⟨?_, ?_, ?_⟩
  · rw [hentries]
    simp [hlen]
  · have hnotin : s0 ∉ rest.reverse := by
      rw [List.mem_reverse]
      exact (List.nodup_cons.mp hnodup).1
    unfold ConstraintsCache.Get lruGet
    rw [hentries, assocFind_map_empty, if_neg hnotin]
  · intro s hs
    have hin : s ∈ rest.reverse := by
      rw [List.mem_reverse]
      exact hs
    unfold ConstraintsCache.Get lruGet
    rw [hentries, assocFind_map_empty, if_pos hin]

/-- Witness for C6: capacity 1, slots 1 then 2; afterwards one entry
remains, slot 1 is gone and slot 2 is retrievable. -/
theorem C6_eviction_bound_witness :
    ((addSlots sampleCodec (NewConstraintsCache 1) [1, 2]
        (fun _ => [none])).constraints.entries.length = 1)
  ∧ (((addSlots sampleCodec (NewConstraintsCache 1) [1, 2] (fun _ => [none])).Get 1).1 = none)
  ∧ (((addSlots sampleCodec (NewConstraintsCache 1) [1, 2] (fun _ => [none])).Get 2).1 = some []) :=
  ⟨(C6_eviction_bound sampleCodec 1 (by decide) 1 [2] rfl (by decide)
      (fun _ => [none]) (fun s hs => by simp)).1,
   (C6_eviction_bound sampleCodec 1 (by decide) 1 [2] rfl (by decide)
      (fun _ => [none]) (fun s hs => by simp)).2.1,
   (C6_eviction_bound sampleCodec 1 (by decide) 1 [2] rfl (by decide)
      (fun _ => [none]) (fun s hs => by simp)).2.2 2 (by simp)⟩
